import Mathlib

/-!
Verification of the rectangle-packing suggestion engine of the lasercutReuse
repository (`src/utils/imageProcessor.ts`, function `suggestRectanglesFromMask`
and its helpers `buildDescendingRange`, `isAreaUnused`, `whiteCoverageRatio`,
`markUsed`, `toMm`).

Shallow embedding conventions:
* JavaScript numbers holding physical (millimetre) quantities are modelled as
  rationals `ℚ`; pixel coordinates and sizes are `ℕ`.
* `Math.round` is modelled by `jsRound` (round half towards positive infinity,
  which is JavaScript's behaviour); `x.toFixed(4)`/`x.toFixed(3)` on the
  positive values occurring here round half away from zero, modelled by
  `toFixed4`/`toFixed3`.
* The `Uint8Array` grids `original` and `available` are modelled as functions
  `ℕ → Bool` from linear cell index (`y * maskWidth + x`) to the 0/1 content;
  an out-of-range read yields `false`, matching `undefined` being falsy.
  Writing the gap-expanded region in `markUsed` becomes a pointwise update.
  The caller's `mask` argument is carried unchanged in the scan state as
  `maskBuf` so that the frame property (the engine never writes the caller's
  buffer) is visible in the model.
* The cancellation callback `shouldAbort` is modelled as an optional sequence
  `ℕ → Bool` giving the result of its n-th evaluation; the scan state records
  how many times it has been polled and at which kind of program point
  (`PollSite`), mirroring the three call sites in the source (start of a row,
  start of a column anchor, end-of-row check after the yield point).
* `onProgress` only receives data and its failures are swallowed by the
  source, so progress reporting does not influence the result and is not
  modelled beyond the `processedRows` counter it reads.
-/

/-- JavaScript's `Math.round`: round half towards `+∞`. -/
def jsRound (q : ℚ) : ℤ := ⌊q + 1 / 2⌋

/-- Model of `Number(x.toFixed(4))` for the positive magnitudes used here. -/
def toFixed4 (q : ℚ) : ℚ := (jsRound (q * 10000) : ℚ) / 10000

/-- Model of `x.toFixed(3)` used as a dedup key, for the positive magnitudes used here. -/
def toFixed3 (q : ℚ) : ℚ := (jsRound (q * 1000) : ℚ) / 1000

/-- Insertion-order deduplication, as performed by `new Set(values)`. -/
def dedupFirst (l : List ℚ) : List ℚ :=
  l.foldl (fun acc a => if a ∈ acc then acc else acc ++ [a]) []

/-- Model of `.sort((a, b) => b - a)`: numerically descending. -/
def sortDesc (l : List ℚ) : List ℚ :=
  List.insertionSort (fun a b => b ≤ a) l

/-- Model of `buildDescendingRange(max, min, step)` from `imageProcessor.ts`.
The `while (current >= min)` loop pushes `Number(current.toFixed(4))` for
`current = max - i*step` while `current ≥ min`, i.e. for
`i = 0, …, ⌊(max-min)/step⌋`; then the `min` endpoint is appended when the
last pushed value differs from it; finally the list is deduplicated and
sorted descending. -/
def buildDescendingRange (maxV minV step : ℚ) : List ℚ :=
  if step ≤ 0 then
    sortDesc (dedupFirst [maxV, minV])
  else
    let n : ℕ := if maxV < minV then 0 else (⌊(maxV - minV) / step⌋).toNat + 1
    let values := (List.range n).map (fun i => toFixed4 (maxV - (i : ℚ) * step))
    let values :=
      if values.getLast? = some (toFixed4 minV) then values
      else values ++ [toFixed4 minV]
    sortDesc (dedupFirst values)

/-- A candidate `(widthMm, heightMm)` size pair. -/
structure SizePair where
  widthMm : ℚ
  heightMm : ℚ
deriving DecidableEq, Repr

/-- The `orientation` configuration value. -/
inductive RectOrientation where
  | landscape
  | portrait
  | both
deriving DecidableEq, Repr

/-- Model of `addPair` with its `seen` set keyed by `toFixed(3)` strings: a pair is
appended iff its rounded key has not been seen. -/
def addPair (st : List SizePair × List (ℚ × ℚ)) (w h : ℚ) :
    List SizePair × List (ℚ × ℚ) :=
  let key := (toFixed3 w, toFixed3 h)
  if key ∈ st.2 then st else (st.1 ++ [⟨w, h⟩], st.2 ++ [key])

/-- One step of the nested `widthCandidates.forEach(... heightCandidates.forEach ...)`
pair generation for a given orientation. -/
def addPairsFor (o : RectOrientation) (st : List SizePair × List (ℚ × ℚ))
    (w h : ℚ) : List SizePair × List (ℚ × ℚ) :=
  match o with
  | .landscape => addPair st w h
  | .portrait => addPair st h w
  | .both =>
      let st := addPair st w h
      if w ≠ h then addPair st h w else st

/-- The deduplicated cross product of width and height candidates, before the
area sort. -/
def rawSizePairs (o : RectOrientation) (widthCandidates heightCandidates : List ℚ) :
    List SizePair :=
  (widthCandidates.foldl
    (fun st w => heightCandidates.foldl (fun st h => addPairsFor o st w h) st)
    ([], [])).1

/-- Model of `sizePairs.sort((a, b) => b.widthMm*b.heightMm - a.widthMm*a.heightMm)`:
stable sort by descending area (insertion sort with a non-strict total
preorder is stable, matching JavaScript's stable `Array.prototype.sort`). -/
def sortByAreaDesc (l : List SizePair) : List SizePair :=
  List.insertionSort
    (fun a b => b.widthMm * b.heightMm ≤ a.widthMm * a.heightMm) l

/-- A produced suggestion, in millimetres. -/
structure RectangleSuggestion where
  xMm : ℚ
  yMm : ℚ
  widthMm : ℚ
  heightMm : ℚ
deriving DecidableEq, Repr

/-- Which of the three `shouldAbort()` call sites a poll happened at:
the check at the top of a row (line 600), the check at the start of a column
anchor in the inner loop (line 606), and the end-of-row check after the
progress/yield points (line 641). -/
inductive PollSite where
  | rowStart
  | colAnchor
  | rowEnd
deriving DecidableEq, Repr

/-- Model of `RectanglePackingOptions`: optional fields keep their optionality so the
`??` defaulting and clamping of the source is modelled faithfully.
`onProgress` carries no information relevant to the result (its failures are
swallowed); `shouldAbort` is the sequence of its observed values. -/
structure RectanglePackingOptions where
  maxWidthMm : ℚ
  maxHeightMm : ℚ
  minWidthMm : Option ℚ := none
  minHeightMm : Option ℚ := none
  stepMm : Option ℚ := none
  gapMm : Option ℚ := none
  coverageThreshold : Option ℚ := none
  orientation : Option RectOrientation := none
  maxShapes : Option ℕ := none
  progressIntervalRows : Option ℚ := none
  yieldAfterRows : Option ℚ := none
  shouldAbort : Option (ℕ → Bool) := none

/-- The mutable scan state of one `suggestRectanglesFromMask` call.
`maskBuf` is the caller-supplied mask (never written); `original` and
`available` are the two private binarized grids; `polls`/`trace` record the
`shouldAbort` evaluations. -/
structure ScanSt where
  maskBuf : List ℕ
  original : ℕ → Bool
  avail : ℕ → Bool
  sugs : List RectangleSuggestion
  polls : ℕ
  trace : List PollSite
  processedRows : ℕ

/-- The per-call constants of the scan (resolved configuration and grids
metadata), excluding the cancellation callback which is threaded separately. -/
structure ScanCtx where
  W : ℕ
  H : ℕ
  pxX : ℚ
  pxY : ℚ
  gapPxX : ℕ
  gapPxY : ℕ
  stepPxX : ℕ
  stepPxY : ℕ
  cThr : ℚ
  maxShapes : ℕ
  sizePairs : List SizePair
  colAnchors : List ℕ

/-- Binarization of the caller's mask (`mask[i] > 200 ? 1 : 0`), as the
content of both `original` and `available` at scan start. Out-of-range reads
are `false` (`undefined` is falsy). -/
def binarize (mask : List ℕ) : ℕ → Bool := fun i => decide (200 < mask.getD i 0)

/-- Model of `toMm(valuePx, perMm) = valuePx / perMm`. -/
def toMm (valuePx : ℕ) (perMm : ℚ) : ℚ := (valuePx : ℚ) / perMm

/-- Model of `isAreaUnused(x, y, w, h)`: every cell of the gap-expanded rectangle,
clamped to the grid, is still available. -/
def isAreaUnused (avail : ℕ → Bool) (W H gapX gapY x y w h : ℕ) : Bool :=
  let startX := x - gapX
  let startY := y - gapY
  let endX := min W (x + w + gapX)
  let endY := min H (y + h + gapY)
  (List.range' startY (endY - startY)).all fun yy =>
    (List.range' startX (endX - startX)).all fun xx => avail (yy * W + xx)

/-- Model of `whiteCoverageRatio(x, y, w, h)`: fraction of cells of the exact (not
gap-expanded) rectangle that are free in `original`; `0` when the area is
empty. -/
def whiteCoverageRatio (original : ℕ → Bool) (W x y w h : ℕ) : ℚ :=
  let white := ((List.range' y h).map fun yy =>
    ((List.range' x w).filter fun xx => original (yy * W + xx)).length).sum
  let total := h * w
  if total = 0 then 0 else (white : ℚ) / (total : ℚ)

/-- Model of `markUsed(x, y, w, h)`: zero every cell of the gap-expanded rectangle,
clamped to the grid, in `available`. A linear index `c` lies in the region
iff its column `c % W` and row `c / W` do. -/
def markUsed (avail : ℕ → Bool) (W H gapX gapY x y w h : ℕ) : ℕ → Bool :=
  fun c =>
    if x - gapX ≤ c % W ∧ c % W < min W (x + w + gapX) ∧
        y - gapY ≤ c / W ∧ c / W < min H (y + h + gapY) then false
    else avail c

/-- Pixel width of a candidate pair: `Math.max(1, Math.round(widthMm * pxPerMmX))`. -/
def wPxOf (ctx : ScanCtx) (p : SizePair) : ℕ := (max 1 (jsRound (p.widthMm * ctx.pxX))).toNat

/-- Pixel height of a candidate pair: `Math.max(1, Math.round(heightMm * pxPerMmY))`. -/
def hPxOf (ctx : ScanCtx) (p : SizePair) : ℕ := (max 1 (jsRound (p.heightMm * ctx.pxY))).toNat

/-- The four `continue` filters of the candidate loop, as one predicate:
positive pixel size, fits within the grid, the gap-expanded area is
unused, and the coverage threshold is met. -/
def candidateOK (ctx : ScanCtx) (avail original : ℕ → Bool) (y x wPx hPx : ℕ) : Bool :=
  decide (1 ≤ wPx) && decide (1 ≤ hPx) &&
  decide (x + wPx ≤ ctx.W) && decide (y + hPx ≤ ctx.H) &&
  isAreaUnused avail ctx.W ctx.H ctx.gapPxX ctx.gapPxY x y wPx hPx &&
  decide (ctx.cThr ≤ whiteCoverageRatio original ctx.W x y wPx hPx)

/-- Acceptance of a candidate at an anchor: push the millimetre suggestion and
mark the gap-expanded region used. -/
def acceptAt (ctx : ScanCtx) (y x wPx hPx : ℕ) (st : ScanSt) : ScanSt :=
  { st with
    sugs := st.sugs ++ [{ xMm := toMm x ctx.pxX, yMm := toMm y ctx.pxY,
                          widthMm := toMm wPx ctx.pxX, heightMm := toMm hPx ctx.pxY }],
    avail := markUsed st.avail ctx.W ctx.H ctx.gapPxX ctx.gapPxY x y wPx hPx }

/-- Processing of one anchor `(x, y)`: skip when the anchor cell is not
available, otherwise take the first candidate pair passing all filters
(the `for (const pair of sizePairs) { … break; }` loop). -/
def tryAnchor (ctx : ScanCtx) (y x : ℕ) (st : ScanSt) : ScanSt :=
  if st.avail (y * ctx.W + x) = false then st
  else
    match ctx.sizePairs.find?
        (fun p => candidateOK ctx st.avail st.original y x (wPxOf ctx p) (hPxOf ctx p)) with
    | none => st
    | some p => acceptAt ctx y x (wPxOf ctx p) (hPxOf ctx p) st

/-- One evaluation of `shouldAbort` (when the caller supplied one), recording
the poll site. -/
def doPoll (sa : Option (ℕ → Bool)) (site : PollSite) (st : ScanSt) : Bool × ScanSt :=
  match sa with
  | none => (false, st)
  | some f => (f st.polls, { st with polls := st.polls + 1, trace := st.trace ++ [site] })

/-- The inner column loop of the scan over the remaining anchors of one row:
re-check the `suggestions.length < maxShapes` loop condition, poll
`shouldAbort` (a `true` observation breaks out of the row), then process the
anchor. -/
def scanRow (ctx : ScanCtx) (sa : Option (ℕ → Bool)) (y : ℕ) :
    List ℕ → ScanSt → ScanSt
  | [], st => st
  | x :: xs, st =>
    if ctx.maxShapes ≤ st.sugs.length then st
    else
      let pr := doPoll sa .colAnchor st
      if pr.1 then pr.2
      else scanRow ctx sa y xs (tryAnchor ctx y x pr.2)

/-- The outer row loop: re-check the loop condition, poll `shouldAbort` at the
top of the row (a `true` observation ends the scan), bump `processedRows`,
run the inner loop, and after the progress/yield points poll again (a `true`
observation ends the scan). -/
def scanRows (ctx : ScanCtx) (sa : Option (ℕ → Bool)) :
    List ℕ → ScanSt → ScanSt
  | [], st => st
  | y :: ys, st =>
    if ctx.maxShapes ≤ st.sugs.length then st
    else
      let pr := doPoll sa .rowStart st
      if pr.1 then pr.2
      else
        let st1 := { pr.2 with processedRows := pr.2.processedRows + 1 }
        let st2 := scanRow ctx sa y ctx.colAnchors st1
        let pr2 := doPoll sa .rowEnd st2
        if pr2.1 then pr2.2
        else scanRows ctx sa ys pr2.2

/-- The ratio `maskWidth / widthMm`. -/
def pxPerMmX (maskWidth : ℕ) (widthMm : ℚ) : ℚ := (maskWidth : ℚ) / widthMm

/-- The ratio `maskHeight / heightMm`. -/
def pxPerMmY (maskHeight : ℕ) (heightMm : ℚ) : ℚ := (maskHeight : ℚ) / heightMm

/-- The clamped coverage threshold
`Math.min(Math.max(options.coverageThreshold ?? 0.95, 0), 1)`. -/
def resolvedCoverageThreshold (options : RectanglePackingOptions) : ℚ :=
  min (max (options.coverageThreshold.getD (19 / 20)) 0) 1

/-- The resolved `maxShapes` (`options.maxShapes ?? 200`). -/
def resolvedMaxShapes (options : RectanglePackingOptions) : ℕ :=
  options.maxShapes.getD 200

/-- The candidate size pairs attempted at every anchor: deduplicated cross
product of the descending ranges, sorted by descending area. -/
def sizePairsOf (options : RectanglePackingOptions) : List SizePair :=
  let maxWidthMm := max options.maxWidthMm 1
  let maxHeightMm := max options.maxHeightMm 1
  let minWidthMm := max (options.minWidthMm.getD 20) 1
  let minHeightMm := max (options.minHeightMm.getD 20) 1
  let stepMm := max (options.stepMm.getD 10) (1 / 5)
  let widthCandidates := buildDescendingRange maxWidthMm minWidthMm stepMm
  let heightCandidates := buildDescendingRange maxHeightMm minHeightMm stepMm
  sortByAreaDesc (rawSizePairs (options.orientation.getD .both) widthCandidates heightCandidates)

/-- Resolution of all configuration constants of one call (lines 466–528 of
`imageProcessor.ts`). -/
def mkScanCtx (maskWidth maskHeight : ℕ) (widthMm heightMm : ℚ)
    (options : RectanglePackingOptions) : ScanCtx :=
  let pxX := pxPerMmX maskWidth widthMm
  let pxY := pxPerMmY maskHeight heightMm
  let stepMm := max (options.stepMm.getD 10) (1 / 5)
  let gapMm := max (options.gapMm.getD 5) 0
  { W := maskWidth
    H := maskHeight
    pxX := pxX
    pxY := pxY
    gapPxX := (jsRound (gapMm * pxX)).toNat
    gapPxY := (jsRound (gapMm * pxY)).toNat
    stepPxX := (max 1 (jsRound (stepMm * pxX))).toNat
    stepPxY := (max 1 (jsRound (stepMm * pxY))).toNat
    cThr := resolvedCoverageThreshold options
    maxShapes := resolvedMaxShapes options
    sizePairs := sizePairsOf options
    colAnchors := List.range' 0 ((maskWidth + (max 1 (jsRound (stepMm * pxX))).toNat - 1) /
      (max 1 (jsRound (stepMm * pxX))).toNat) (max 1 (jsRound (stepMm * pxX))).toNat }

/-- The row anchor positions `0, stepPxY, 2·stepPxY, … < maskHeight`. -/
def rowAnchorsOf (ctx : ScanCtx) : List ℕ :=
  List.range' 0 ((ctx.H + ctx.stepPxY - 1) / ctx.stepPxY) ctx.stepPxY

/-- The scan state at the start of the scan: both private grids hold the
binarized mask, nothing accepted, nothing polled. -/
def initSt (mask : List ℕ) : ScanSt :=
  { maskBuf := mask
    original := binarize mask
    avail := binarize mask
    sugs := []
    polls := 0
    trace := []
    processedRows := 0 }

/-- Model of `suggestRectanglesFromMask`: input validation, configuration resolution,
then the row/column scan. The result carries the final scan state (whose
`sugs` field is the resolved list of suggestions). -/
def suggestRectanglesFromMask (mask : List ℕ) (maskWidth maskHeight : ℕ)
    (widthMm heightMm : ℚ) (options : RectanglePackingOptions) :
    Except String ScanSt :=
  if mask.length ≠ maskWidth * maskHeight then .error "蒙版尺寸与数组长度不一致"
  else if widthMm ≤ 0 ∨ heightMm ≤ 0 then .error "无效的实际尺寸"
  else
    let ctx := mkScanCtx maskWidth maskHeight widthMm heightMm options
    .ok (scanRows ctx options.shouldAbort (rowAnchorsOf ctx) (initSt mask))

/-! ## Pixel rectangles and the scan invariant -/

/-- A placement in pixel space: anchor `(x, y)` and size `(w, h)`. -/
structure PxRect where
  x : ℕ
  y : ℕ
  w : ℕ
  h : ℕ
deriving DecidableEq, Repr

/-- The millimetre suggestion produced for a pixel placement (`toMm` applied
to anchor and size with the per-axis scales). -/
def toSug (pxX pxY : ℚ) (r : PxRect) : RectangleSuggestion :=
  { xMm := toMm r.x pxX, yMm := toMm r.y pxY,
    widthMm := toMm r.w pxX, heightMm := toMm r.h pxY }

/-- Cell `(xx, yy)` lies inside the gap-expanded bounding box of `r`, clamped
to the `W × H` grid — the region that `isAreaUnused` checks and `markUsed`
zeroes. -/
def inExpandedRect (W H gapX gapY : ℕ) (r : PxRect) (xx yy : ℕ) : Prop :=
  r.x - gapX ≤ xx ∧ xx < min W (r.x + r.w + gapX) ∧
  r.y - gapY ≤ yy ∧ yy < min H (r.y + r.h + gapY)

/-- The resolved gap in pixels on the x axis. -/
def resolvedGapPxX (maskWidth : ℕ) (widthMm : ℚ) (options : RectanglePackingOptions) : ℕ :=
  (jsRound (max (options.gapMm.getD 5) 0 * pxPerMmX maskWidth widthMm)).toNat

/-- The resolved gap in pixels on the y axis. -/
def resolvedGapPxY (maskHeight : ℕ) (heightMm : ℚ) (options : RectanglePackingOptions) : ℕ :=
  (jsRound (max (options.gapMm.getD 5) 0 * pxPerMmY maskHeight heightMm)).toNat

/-- Predicate: `r` was accepted and its expanded region is fully zeroed in `avail`. -/
def DeadRect (ctx : ScanCtx) (avail : ℕ → Bool) (r : PxRect) : Prop :=
  ∀ xx yy, inExpandedRect ctx.W ctx.H ctx.gapPxX ctx.gapPxY r xx yy →
    avail (yy * ctx.W + xx) = false

/-- The accepted pixel placement satisfies all acceptance filters: positive
size, within the grid, and coverage against the binarized mask at least the
resolved threshold. -/
def GoodRect (ctx : ScanCtx) (mask : List ℕ) (r : PxRect) : Prop :=
  1 ≤ r.w ∧ 1 ≤ r.h ∧ r.x + r.w ≤ ctx.W ∧ r.y + r.h ≤ ctx.H ∧
  ctx.cThr ≤ whiteCoverageRatio (binarize mask) ctx.W r.x r.y r.w r.h

/-- The gap-expanded regions of `a` and `b` share no grid cell. -/
def ExpDisjoint (ctx : ScanCtx) (a b : PxRect) : Prop :=
  ∀ xx yy, inExpandedRect ctx.W ctx.H ctx.gapPxX ctx.gapPxY a xx yy →
    inExpandedRect ctx.W ctx.H ctx.gapPxX ctx.gapPxY b xx yy → False

/-- Discovery order on pixel placements: strictly earlier row, or same row and
strictly smaller column. -/
def pixLex (a b : PxRect) : Prop := a.y < b.y ∨ (a.y = b.y ∧ a.x < b.x)

instance : IsTotal SizePair
    (fun a b => b.widthMm * b.heightMm ≤ a.widthMm * a.heightMm) :=
  ⟨fun _ _ => le_total _ _⟩

instance : IsTrans SizePair
    (fun a b => b.widthMm * b.heightMm ≤ a.widthMm * a.heightMm) :=
  ⟨fun _ _ _ hab hbc => le_trans hbc hab⟩

/-- The scan invariant: the caller's buffer is untouched, `original` is the
binarized mask, and the suggestions so far are the images of a list of pixel
placements that all pass the acceptance filters, occupy pairwise disjoint
gap-expanded regions (all zeroed in `available`), and appear in discovery
order. -/
structure InvP (ctx : ScanCtx) (mask : List ℕ) (st : ScanSt) (rs : List PxRect) : Prop where
  hmask : st.maskBuf = mask
  horig : st.original = binarize mask
  hsugs : st.sugs = rs.map (toSug ctx.pxX ctx.pxY)
  hgood : ∀ r ∈ rs, GoodRect ctx mask r
  hdead : ∀ r ∈ rs, DeadRect ctx st.avail r
  hdisj : rs.Pairwise (ExpDisjoint ctx)
  hord : rs.Pairwise pixLex

/-- Two scan states agreeing on everything the remaining scan depends on. -/
def Aligned (st1 st2 : ScanSt) : Prop :=
  st1.sugs = st2.sugs ∧ st1.avail = st2.avail ∧ st1.original = st2.original

/-- A monotone cancellation observation sequence: once observed true it stays
true (an externally set abort flag that is never reset during the call). -/
def AbortMonotone (f : ℕ → Bool) : Prop :=
  ∀ m n, m ≤ n → f m = true → f n = true

/-- An 8×8 all-white demo mask representing an 8 mm × 8 mm board at
1 px/mm. -/
def demoMask : List ℕ := List.replicate 64 255

/-- Demo configuration: 2–4 mm candidates in 2 mm steps, no gap, 0.9
coverage threshold, landscape orientation. -/
def demoOpts : RectanglePackingOptions :=
  { maxWidthMm := 4, maxHeightMm := 4, minWidthMm := some 2,
    minHeightMm := some 2, stepMm := some 2, gapMm := some 0,
    coverageThreshold := some (9 / 10), orientation := some .landscape,
    maxShapes := some 200 }

/-- The final state of the engine on the demo input. -/
def demoSt : ScanSt :=
  match suggestRectanglesFromMask demoMask 8 8 8 8 demoOpts with
  | .ok st => st
  | .error _ => initSt []

/-- The final state of the engine on the demo input with the cap lowered to
one shape. -/
def demoCapSt : ScanSt :=
  match suggestRectanglesFromMask demoMask 8 8 8 8
      { demoOpts with maxShapes := some 1 } with
  | .ok st => st
  | .error _ => initSt []

/-- A 4×4 all-white demo mask (4 mm × 4 mm board at 1 px/mm). -/
def demo2Mask : List ℕ := List.replicate 16 255

/-- Demo configuration with a single 2×2 mm candidate size and a constantly
false cancellation predicate. -/
def demo2Opts : RectanglePackingOptions :=
  { maxWidthMm := 2, maxHeightMm := 2, minWidthMm := some 2,
    minHeightMm := some 2, stepMm := some 2, gapMm := some 0,
    coverageThreshold := some (9 / 10), orientation := some .landscape,
    maxShapes := some 200, shouldAbort := some (fun _ => false) }

/-- The final state of the engine on the second demo input. -/
def demo2St : ScanSt :=
  match suggestRectanglesFromMask demo2Mask 4 4 4 4 demo2Opts with
  | .ok st => st
  | .error _ => initSt []

/-- A cancellation observation sequence that turns true at its third
evaluation and stays true. -/
def demo2AbortSeq : ℕ → Bool := fun n => decide (2 ≤ n)

/-- The final state of the engine on the second demo input with the abort
sequence that flips true mid-scan. -/
def demo2AbortSt : ScanSt :=
  match suggestRectanglesFromMask demo2Mask 4 4 4 4
      { demo2Opts with shouldAbort := some demo2AbortSeq } with
  | .ok st => st
  | .error _ => initSt []

/-- Lemma: `isAreaUnused` checks every cell of the expanded region. -/
theorem isAreaUnused_cells {avail : ℕ → Bool} {W H gapX gapY : ℕ} {r : PxRect}
    (hall : isAreaUnused avail W H gapX gapY r.x r.y r.w r.h = true)
    {xx yy : ℕ} (hr : inExpandedRect W H gapX gapY r xx yy) :
    avail (yy * W + xx) = true := by
  unfold inExpandedRect at hr
  obtain ⟨hx1, hx2, hy1, hy2⟩ := hr
  unfold isAreaUnused at hall
  rw [List.all_eq_true] at hall
  have hyMem : yy ∈ List.range'
      (r.y - gapY) (min H (r.y + r.h + gapY) - (r.y - gapY)) := by
    rw [List.mem_range'_1]
    exact ⟨hy1, by omega⟩
  have hrow := hall yy hyMem
  rw [List.all_eq_true] at hrow
  exact hrow xx (by rw [List.mem_range'_1]; exact ⟨hx1, by omega⟩)

/-- Lemma: `markUsed` zeroes every cell of the expanded region. -/
theorem markUsed_cells {avail : ℕ → Bool} {W H gapX gapY : ℕ} {r : PxRect}
    {xx yy : ℕ} (hr : inExpandedRect W H gapX gapY r xx yy) :
    markUsed avail W H gapX gapY r.x r.y r.w r.h (yy * W + xx) = false := by
  unfold inExpandedRect at hr
  obtain ⟨hx1, hx2, hy1, hy2⟩ := hr
  have hxW : xx < W := lt_of_lt_of_le hx2 (min_le_left _ _)
  have hmod : (yy * W + xx) % W = xx := by
    rw [Nat.mul_comm yy W, Nat.mul_add_mod, Nat.mod_eq_of_lt hxW]
  have hdiv : (yy * W + xx) / W = yy := by
    rw [Nat.mul_comm yy W, Nat.mul_add_div (by omega) yy xx,
      Nat.div_eq_of_lt hxW, Nat.add_zero]
  unfold markUsed
  rw [hmod, hdiv]
  split
  · rfl
  · rename_i hcon
    exact absurd ⟨hx1, hx2, hy1, hy2⟩ hcon

/-- Lemma: `markUsed` never frees a cell. -/
theorem markUsed_mono {avail : ℕ → Bool} {W H gapX gapY x y w h c : ℕ}
    (hc : avail c = false) :
    markUsed avail W H gapX gapY x y w h c = false := by
  unfold markUsed
  split
  · rfl
  · exact hc

/-- Polling does not change the grids, the suggestions or the caller buffer. -/
theorem doPoll_inv {ctx mask st rs} {sa : Option (ℕ → Bool)} {site : PollSite}
    (h : InvP ctx mask st rs) : InvP ctx mask (doPoll sa site st).2 rs := by
  cases sa <;>
    exact { hmask := h.hmask, horig := h.horig, hsugs := h.hsugs,
            hgood := h.hgood, hdead := h.hdead, hdisj := h.hdisj, hord := h.hord }

/-- Bumping `processedRows` does not affect the invariant. -/
theorem processedRows_inv {ctx mask st rs} (h : InvP ctx mask st rs) :
    InvP ctx mask { st with processedRows := st.processedRows + 1 } rs :=
  { hmask := h.hmask, horig := h.horig, hsugs := h.hsugs,
    hgood := h.hgood, hdead := h.hdead, hdisj := h.hdisj, hord := h.hord }

/-- The effect of one anchor on the invariant: either nothing is accepted, or
the first candidate passing all filters is appended, and it is well-formed,
disjoint from (and later in discovery order than) everything before it. -/
theorem tryAnchor_inv (ctx : ScanCtx) (mask : List ℕ) (y x : ℕ) (st : ScanSt)
    (rs : List PxRect) (hInv : InvP ctx mask st rs)
    (hbound : ∀ r ∈ rs, r.y < y ∨ (r.y = y ∧ r.x < x)) :
    ∃ rs', InvP ctx mask (tryAnchor ctx y x st) rs' ∧
      ∀ r ∈ rs', r.y < y ∨ (r.y = y ∧ r.x ≤ x) := by
  have hweak : ∀ r ∈ rs, r.y < y ∨ (r.y = y ∧ r.x ≤ x) := by
    intro r hr
    rcases hbound r hr with h | ⟨h1, h2⟩
    · exact .inl h
    · exact .inr ⟨h1, le_of_lt h2⟩
  unfold tryAnchor
  split
  · exact ⟨rs, hInv, hweak⟩
  · rcases hfind : ctx.sizePairs.find?
        (fun p => candidateOK ctx st.avail st.original y x (wPxOf ctx p) (hPxOf ctx p))
      with _ | p
    · exact ⟨rs, hInv, hweak⟩
    · have hok := List.find?_some hfind
      simp only [candidateOK, Bool.and_eq_true, decide_eq_true_eq] at hok
      obtain ⟨⟨⟨⟨⟨h1, h2⟩, h3⟩, h4⟩, h5⟩, h6⟩ := hok
      refine ⟨rs ++ [⟨x, y, wPxOf ctx p, hPxOf ctx p⟩], ?_, ?_⟩
      · refine
          { hmask := hInv.hmask
            horig := hInv.horig
            hsugs := ?_
            hgood := ?_
            hdead := ?_
            hdisj := ?_
            hord := ?_ }
        · show st.sugs ++ [_] = _
          rw [hInv.hsugs, List.map_append]
          rfl
        · intro r hr
          rcases List.mem_append.mp hr with hr | hr
          · exact hInv.hgood r hr
          · rcases List.mem_singleton.mp hr with rfl
            refine ⟨h1, h2, h3, h4, ?_⟩
            rw [← hInv.horig]
            exact h6
        · intro r hr xx yy hin
          rcases List.mem_append.mp hr with hr | hr
          · exact markUsed_mono (hInv.hdead r hr xx yy hin)
          · rcases List.mem_singleton.mp hr with rfl
            exact markUsed_cells hin
        · rw [List.pairwise_append]
          refine ⟨hInv.hdisj, List.pairwise_singleton _ _, ?_⟩
          intro a ha b hb
          rcases List.mem_singleton.mp hb with rfl
          intro xx yy hina hinb
          have hdead := hInv.hdead a ha xx yy hina
          have hfree := isAreaUnused_cells h5 hinb
          rw [hdead] at hfree
          cases hfree
        · rw [List.pairwise_append]
          refine ⟨hInv.hord, List.pairwise_singleton _ _, ?_⟩
          intro a ha b hb
          rcases List.mem_singleton.mp hb with rfl
          exact hbound a ha
      · intro r hr
        rcases List.mem_append.mp hr with hr | hr
        · exact hweak r hr
        · rcases List.mem_singleton.mp hr with rfl
          exact .inr ⟨rfl, le_refl x⟩

/-- The inner column loop preserves the invariant; afterwards every accepted
placement is anchored in this row or an earlier one. -/
theorem scanRow_inv (ctx : ScanCtx) (sa : Option (ℕ → Bool)) (mask : List ℕ) (y : ℕ) :
    ∀ (xs : List ℕ) (st : ScanSt) (rs : List PxRect),
      InvP ctx mask st rs →
      List.Pairwise (· < ·) xs →
      (∀ r ∈ rs, r.y < y ∨ (r.y = y ∧ ∀ x' ∈ xs, r.x < x')) →
      ∃ rs', InvP ctx mask (scanRow ctx sa y xs st) rs' ∧ ∀ r ∈ rs', r.y ≤ y := by
  intro xs
  induction xs with
  | nil =>
    intro st rs hInv _ hbound
    refine ⟨rs, hInv, fun r hr => ?_⟩
    rcases hbound r hr with h | ⟨h1, _⟩
    · exact le_of_lt h
    · exact le_of_eq h1
  | cons x xs ih =>
    intro st rs hInv hp hbound
    have hflat : ∀ r ∈ rs, r.y ≤ y := by
      intro r hr
      rcases hbound r hr with h | ⟨h1, _⟩
      · exact le_of_lt h
      · exact le_of_eq h1
    simp only [scanRow]
    split
    · exact ⟨rs, hInv, hflat⟩
    · split
      · exact ⟨rs, doPoll_inv hInv, hflat⟩
      · obtain ⟨hx, hp'⟩ := List.pairwise_cons.mp hp
        obtain ⟨rs1, hInv1, hbound1⟩ :=
          tryAnchor_inv ctx mask y x (doPoll sa .colAnchor st).2 rs (doPoll_inv hInv)
            (fun r hr => by
              rcases hbound r hr with h | ⟨h1, h2⟩
              · exact .inl h
              · exact .inr ⟨h1, h2 x (List.mem_cons_self x xs)⟩)
        exact ih (tryAnchor ctx y x (doPoll sa .colAnchor st).2) rs1 hInv1 hp'
          (fun r hr => by
            rcases hbound1 r hr with h | ⟨h1, h2⟩
            · exact .inl h
            · exact .inr ⟨h1, fun x' hx' => lt_of_le_of_lt h2 (hx x' hx')⟩)

/-- The outer row loop preserves the invariant. -/
theorem scanRows_inv (ctx : ScanCtx) (sa : Option (ℕ → Bool)) (mask : List ℕ)
    (hcol : List.Pairwise (· < ·) ctx.colAnchors) :
    ∀ (ys : List ℕ) (st : ScanSt) (rs : List PxRect),
      InvP ctx mask st rs →
      List.Pairwise (· < ·) ys →
      (∀ r ∈ rs, ∀ y' ∈ ys, r.y < y') →
      ∃ rs', InvP ctx mask (scanRows ctx sa ys st) rs' := by
  intro ys
  induction ys with
  | nil =>
    intro st rs hInv _ _
    exact ⟨rs, hInv⟩
  | cons y ys ih =>
    intro st rs hInv hp hbound
    simp only [scanRows]
    split
    · exact ⟨rs, hInv⟩
    · split
      · exact ⟨rs, doPoll_inv hInv⟩
      · obtain ⟨hy, hp'⟩ := List.pairwise_cons.mp hp
        obtain ⟨rs1, hInv1, hbound1⟩ :=
          scanRow_inv ctx sa mask y ctx.colAnchors _ rs
            (processedRows_inv (doPoll_inv hInv)) hcol
            (fun r hr => .inl (hbound r hr y (List.mem_cons_self y ys)))
        split
        · exact ⟨rs1, doPoll_inv hInv1⟩
        · exact ih _ rs1 (doPoll_inv hInv1) hp'
            (fun r hr y' hy' => lt_of_le_of_lt (hbound1 r hr) (hy y' hy'))

/-- Positivity of the resolved pixel strides. -/
theorem toNat_max_one_pos (k : ℤ) : 0 < (max 1 k).toNat := by
  have h : (1 : ℤ) ≤ max 1 k := le_max_left _ _
  omega

/-- Master invariant: a successful call leaves the caller's mask untouched in
the state, keeps `original` as the binarized mask, and yields suggestions
that are exactly the millimetre images of a list of well-formed, pairwise
gap-disjoint pixel placements in discovery order. -/
theorem suggest_ok_inv (mask : List ℕ) (W H : ℕ) (wMm hMm : ℚ)
    (opts : RectanglePackingOptions) (st : ScanSt)
    (h : suggestRectanglesFromMask mask W H wMm hMm opts = .ok st) :
    ∃ rs, InvP (mkScanCtx W H wMm hMm opts) mask st rs := by
  unfold suggestRectanglesFromMask at h
  split at h
  · cases h
  · split at h
    · cases h
    · injection h with h'
      subst h'
      refine scanRows_inv _ _ _ ?_ _ _ []
        ?_ ?_ (fun r hr => absurd hr (List.not_mem_nil r))
      · show List.Pairwise _ (List.range' 0 _ _)
        exact List.pairwise_lt_range' _ _ _ (toNat_max_one_pos _)
      · exact
          { hmask := rfl
            horig := rfl
            hsugs := rfl
            hgood := fun r hr => absurd hr (List.not_mem_nil r)
            hdead := fun r hr => absurd hr (List.not_mem_nil r)
            hdisj := List.Pairwise.nil
            hord := List.Pairwise.nil }
      · show List.Pairwise _ (List.range' 0 _ _)
        exact List.pairwise_lt_range' _ _ _ (toNat_max_one_pos _)

/-! ## Claim theorems -/

/-- A successful call implies the validation preconditions held. -/
theorem suggest_ok_pos (mask : List ℕ) (W H : ℕ) (wMm hMm : ℚ)
    (opts : RectanglePackingOptions) (st : ScanSt)
    (h : suggestRectanglesFromMask mask W H wMm hMm opts = .ok st) :
    mask.length = W * H ∧ 0 < wMm ∧ 0 < hMm := by
  unfold suggestRectanglesFromMask at h
  split at h
  · cases h
  · split at h
    · cases h
    · rename_i h1 h2
      push_neg at h1 h2
      exact ⟨h1, h2.1, h2.2⟩

/-- C10: the engine never mutates the caller-supplied mask: the scan writes
only the private `available` grid, so the mask buffer carried through the
whole call is returned exactly as supplied — whether the scan completed or
was cancelled. -/
theorem suggest_preserves_caller_mask (mask : List ℕ) (W H : ℕ) (wMm hMm : ℚ)
    (opts : RectanglePackingOptions) (st : ScanSt)
    (h : suggestRectanglesFromMask mask W H wMm hMm opts = .ok st) :
    st.maskBuf = mask := by
  obtain ⟨rs, hInv⟩ := suggest_ok_inv mask W H wMm hMm opts st h
  exact hInv.hmask

/-- C7: `suggestRectanglesFromMask` fails with an input-validation error
exactly when the mask length disagrees with `maskWidth * maskHeight` or a
physical dimension is non-positive; under the preconditions the validation
branch is unreachable and the call returns suggestions. -/
theorem suggest_validation_error_iff (mask : List ℕ) (W H : ℕ) (wMm hMm : ℚ)
    (opts : RectanglePackingOptions) :
    (∃ e, suggestRectanglesFromMask mask W H wMm hMm opts = .error e) ↔
      mask.length ≠ W * H ∨ wMm ≤ 0 ∨ hMm ≤ 0 := by
  unfold suggestRectanglesFromMask
  split
  · rename_i h1
    exact ⟨fun _ => .inl h1, fun _ => ⟨_, rfl⟩⟩
  · rename_i h1
    split
    · rename_i h2
      refine ⟨fun _ => ?_, fun _ => ⟨_, rfl⟩⟩
      rcases h2 with h2 | h2
      · exact .inr (.inl h2)
      · exact .inr (.inr h2)
    · rename_i h2
      constructor
      · rintro ⟨e, he⟩
        cases he
      · rintro (h3 | h3 | h3)
        · exact absurd h3 h1
        · exact absurd (.inl h3) h2
        · exact absurd (.inr h3) h2

/-- C4: the engine is deterministic — identical mask, dimensions and
configuration, with cancellation predicates that behave identically, produce
identical results (same suggestions in the same order, same state). -/
theorem suggest_deterministic (mask : List ℕ) (W H : ℕ) (wMm hMm : ℚ)
    (opts : RectanglePackingOptions) (f g : ℕ → Bool) (hfg : ∀ n, f n = g n) :
    suggestRectanglesFromMask mask W H wMm hMm { opts with shouldAbort := some f } =
      suggestRectanglesFromMask mask W H wMm hMm { opts with shouldAbort := some g } := by
  have h : f = g := funext hfg
  subst h
  rfl

/-- C1: every suggestion of a successful call is the millimetre image of a
pixel placement whose exact (non-expanded) rectangle has white coverage
against the binarized original mask at least the clamped coverage
threshold. -/
theorem suggest_purity_ge_threshold (mask : List ℕ) (W H : ℕ) (wMm hMm : ℚ)
    (opts : RectanglePackingOptions) (st : ScanSt)
    (h : suggestRectanglesFromMask mask W H wMm hMm opts = .ok st)
    (s : RectangleSuggestion) (hs : s ∈ st.sugs) :
    ∃ r : PxRect, s = toSug (pxPerMmX W wMm) (pxPerMmY H hMm) r ∧
      resolvedCoverageThreshold opts ≤
        whiteCoverageRatio (binarize mask) W r.x r.y r.w r.h := by
  obtain ⟨rs, hInv⟩ := suggest_ok_inv mask W H wMm hMm opts st h
  rw [hInv.hsugs] at hs
  obtain ⟨r, hr, rfl⟩ := List.mem_map.mp hs
  obtain ⟨-, -, -, -, hcov⟩ := hInv.hgood r hr
  exact ⟨r, rfl, hcov⟩

/-- C2: the suggestions of a successful call come from pixel placements whose
gap-expanded, grid-clamped regions are pairwise disjoint — no grid cell lies
in two of them, clearance margins included. -/
theorem suggest_gap_expanded_disjoint (mask : List ℕ) (W H : ℕ) (wMm hMm : ℚ)
    (opts : RectanglePackingOptions) (st : ScanSt)
    (h : suggestRectanglesFromMask mask W H wMm hMm opts = .ok st) :
    ∃ rs : List PxRect,
      st.sugs = rs.map (toSug (pxPerMmX W wMm) (pxPerMmY H hMm)) ∧
      rs.Pairwise (fun a b => ∀ xx yy,
        inExpandedRect W H (resolvedGapPxX W wMm opts) (resolvedGapPxY H hMm opts) a xx yy →
        inExpandedRect W H (resolvedGapPxX W wMm opts) (resolvedGapPxY H hMm opts) b xx yy →
        False) := by
  obtain ⟨rs, hInv⟩ := suggest_ok_inv mask W H wMm hMm opts st h
  exact ⟨rs, hInv.hsugs, hInv.hdisj.imp (fun hab => hab)⟩

/-- C3: every suggestion of a successful call lies fully inside the physical
board rectangle `[0, widthMm] × [0, heightMm]`. -/
theorem suggest_within_board (mask : List ℕ) (W H : ℕ) (wMm hMm : ℚ)
    (opts : RectanglePackingOptions) (st : ScanSt)
    (h : suggestRectanglesFromMask mask W H wMm hMm opts = .ok st)
    (s : RectangleSuggestion) (hs : s ∈ st.sugs) :
    0 ≤ s.xMm ∧ 0 ≤ s.yMm ∧ s.xMm + s.widthMm ≤ wMm ∧ s.yMm + s.heightMm ≤ hMm := by
  obtain ⟨-, hw, hh⟩ := suggest_ok_pos mask W H wMm hMm opts st h
  obtain ⟨rs, hInv⟩ := suggest_ok_inv mask W H wMm hMm opts st h
  rw [hInv.hsugs] at hs
  obtain ⟨r, hr, rfl⟩ := List.mem_map.mp hs
  obtain ⟨hw1, hh1, hxW, hyH, -⟩ := hInv.hgood r hr
  have hxW' : r.x + r.w ≤ W := hxW
  have hyH' : r.y + r.h ≤ H := hyH
  have hW : 0 < W := by omega
  have hH : 0 < H := by omega
  have hWQ : (0 : ℚ) < (W : ℚ) := by exact_mod_cast hW
  have hHQ : (0 : ℚ) < (H : ℚ) := by exact_mod_cast hH
  have hpxX : 0 < pxPerMmX W wMm := div_pos hWQ hw
  have hpxY : 0 < pxPerMmY H hMm := div_pos hHQ hh
  have hWcap : (W : ℚ) / pxPerMmX W wMm = wMm := by
    unfold pxPerMmX
    rw [div_div_eq_mul_div, mul_comm (W : ℚ) wMm, mul_div_assoc,
      div_self (ne_of_gt hWQ), mul_one]
  have hHcap : (H : ℚ) / pxPerMmY H hMm = hMm := by
    unfold pxPerMmY
    rw [div_div_eq_mul_div, mul_comm (H : ℚ) hMm, mul_div_assoc,
      div_self (ne_of_gt hHQ), mul_one]
  refine ⟨div_nonneg (Nat.cast_nonneg _) (le_of_lt hpxX),
          div_nonneg (Nat.cast_nonneg _) (le_of_lt hpxY), ?_, ?_⟩
  · show (r.x : ℚ) / pxPerMmX W wMm + (r.w : ℚ) / pxPerMmX W wMm ≤ wMm
    rw [div_add_div_same]
    have hle : (r.x : ℚ) + (r.w : ℚ) ≤ (W : ℚ) := by exact_mod_cast hxW'
    have h2 := (div_le_div_iff_of_pos_right hpxX).mpr hle
    rw [hWcap] at h2
    exact h2
  · show (r.y : ℚ) / pxPerMmY H hMm + (r.h : ℚ) / pxPerMmY H hMm ≤ hMm
    rw [div_add_div_same]
    have hle : (r.y : ℚ) + (r.h : ℚ) ≤ (H : ℚ) := by exact_mod_cast hyH'
    have h2 := (div_le_div_iff_of_pos_right hpxY).mpr hle
    rw [hHcap] at h2
    exact h2

/-- C6: suggestions appear in discovery order — the anchor rows are
non-decreasing along the returned list, and strictly increasing anchor x
within equal rows — and the precomputed candidate list is sorted by
descending area, so larger candidates are attempted first at each anchor. -/
theorem suggest_discovery_order (mask : List ℕ) (W H : ℕ) (wMm hMm : ℚ)
    (opts : RectanglePackingOptions) (st : ScanSt)
    (h : suggestRectanglesFromMask mask W H wMm hMm opts = .ok st) :
    st.sugs.Pairwise
      (fun a b => a.yMm < b.yMm ∨ (a.yMm = b.yMm ∧ a.xMm < b.xMm)) ∧
    List.Sorted (fun a b : SizePair =>
      b.widthMm * b.heightMm ≤ a.widthMm * a.heightMm) (sizePairsOf opts) := by
  constructor
  · obtain ⟨-, hw, hh⟩ := suggest_ok_pos mask W H wMm hMm opts st h
    obtain ⟨rs, hInv⟩ := suggest_ok_inv mask W H wMm hMm opts st h
    rw [hInv.hsugs, List.pairwise_map]
    refine List.Pairwise.imp_of_mem ?_ hInv.hord
    intro a b ha hb hlex
    obtain ⟨hwa, hha, hxWa, hyHa, -⟩ := hInv.hgood a ha
    have hxWa' : a.x + a.w ≤ W := hxWa
    have hyHa' : a.y + a.h ≤ H := hyHa
    have hW : 0 < W := by omega
    have hH : 0 < H := by omega
    have hpxX : 0 < pxPerMmX W wMm := div_pos (by exact_mod_cast hW) hw
    have hpxY : 0 < pxPerMmY H hMm := div_pos (by exact_mod_cast hH) hh
    rcases hlex with hy | ⟨hy, hx⟩
    · left
      show (a.y : ℚ) / pxPerMmY H hMm < (b.y : ℚ) / pxPerMmY H hMm
      exact (div_lt_div_iff_of_pos_right hpxY).mpr (by exact_mod_cast hy)
    · right
      constructor
      · show (a.y : ℚ) / pxPerMmY H hMm = (b.y : ℚ) / pxPerMmY H hMm
        rw [hy]
      · show (a.x : ℚ) / pxPerMmX W wMm < (b.x : ℚ) / pxPerMmX W wMm
        exact (div_lt_div_iff_of_pos_right hpxX).mpr (by exact_mod_cast hx)
  · unfold sizePairsOf sortByAreaDesc
    exact List.sorted_insertionSort _ _

/-- Polling does not change the suggestion list. -/
theorem doPoll_sugs (sa : Option (ℕ → Bool)) (site : PollSite) (st : ScanSt) :
    (doPoll sa site st).2.sugs = st.sugs := by
  cases sa <;> rfl

/-- One anchor appends at most one suggestion. -/
theorem tryAnchor_len (ctx : ScanCtx) (y x : ℕ) (st : ScanSt) :
    (tryAnchor ctx y x st).sugs.length ≤ st.sugs.length + 1 := by
  unfold tryAnchor
  split
  · exact Nat.le_succ _
  · rcases hfind : ctx.sizePairs.find?
        (fun p => candidateOK ctx st.avail st.original y x (wPxOf ctx p) (hPxOf ctx p))
      with _ | p
    · exact Nat.le_succ _
    · unfold acceptAt
      show (st.sugs ++ [_]).length ≤ st.sugs.length + 1
      rw [List.length_append]
      exact le_refl _

/-- The inner loop never pushes the suggestion count beyond the cap. -/
theorem scanRow_len (ctx : ScanCtx) (sa : Option (ℕ → Bool)) (y : ℕ) :
    ∀ (xs : List ℕ) (st : ScanSt), st.sugs.length ≤ ctx.maxShapes →
      (scanRow ctx sa y xs st).sugs.length ≤ ctx.maxShapes := by
  intro xs
  induction xs with
  | nil => intro st h; exact h
  | cons x xs ih =>
    intro st h
    simp only [scanRow]
    split
    · exact h
    · rename_i hguard
      split
      · rw [doPoll_sugs]
        exact h
      · apply ih
        have h1 := tryAnchor_len ctx y x (doPoll sa .colAnchor st).2
        rw [doPoll_sugs] at h1
        omega

/-- The scan never produces more than `maxShapes` suggestions. -/
theorem scanRows_len (ctx : ScanCtx) (sa : Option (ℕ → Bool)) :
    ∀ (ys : List ℕ) (st : ScanSt), st.sugs.length ≤ ctx.maxShapes →
      (scanRows ctx sa ys st).sugs.length ≤ ctx.maxShapes := by
  intro ys
  induction ys with
  | nil => intro st h; exact h
  | cons y ys ih =>
    intro st h
    simp only [scanRows]
    split
    · exact h
    · split
      · rw [doPoll_sugs]
        exact h
      · split
        · rw [doPoll_sugs]
          apply scanRow_len
          show (doPoll sa .rowStart st).2.sugs.length ≤ _
          rw [doPoll_sugs]
          exact h
        · apply ih
          rw [doPoll_sugs]
          apply scanRow_len
          show (doPoll sa .rowStart st).2.sugs.length ≤ _
          rw [doPoll_sugs]
          exact h

/-- C5: a successful call returns at most the resolved `maxShapes`
suggestions, and the cap cuts the scan short: on the all-white demo board the
call with `maxShapes = 1` returns exactly one suggestion even though the
unrestricted call finds four. -/
theorem suggest_respects_maxShapes (mask : List ℕ) (W H : ℕ) (wMm hMm : ℚ)
    (opts : RectanglePackingOptions) (st : ScanSt)
    (h : suggestRectanglesFromMask mask W H wMm hMm opts = .ok st) :
    st.sugs.length ≤ resolvedMaxShapes opts ∧
      demoCapSt.sugs.length = 1 ∧ 1 < demoSt.sugs.length := by
  refine ⟨?_, ?_, ?_⟩
  · unfold suggestRectanglesFromMask at h
    split at h
    · cases h
    · split at h
      · cases h
      · injection h with h'
        subst h'
        exact scanRows_len _ _ _ _ (Nat.zero_le _)
  · with_unfolding_all decide
  · with_unfolding_all decide

/-- An anchor only ever appends to the suggestion list. -/
theorem tryAnchor_sugs_append (ctx : ScanCtx) (y x : ℕ) (st : ScanSt) :
    ∃ t, (tryAnchor ctx y x st).sugs = st.sugs ++ t := by
  unfold tryAnchor
  split
  · exact ⟨[], (List.append_nil _).symm⟩
  · rcases hfind : ctx.sizePairs.find?
        (fun p => candidateOK ctx st.avail st.original y x (wPxOf ctx p) (hPxOf ctx p))
      with _ | p
    · exact ⟨[], (List.append_nil _).symm⟩
    · exact ⟨_, rfl⟩

/-- The inner loop only ever appends to the suggestion list. -/
theorem scanRow_sugs_append (ctx : ScanCtx) (sa : Option (ℕ → Bool)) (y : ℕ) :
    ∀ (xs : List ℕ) (st : ScanSt),
      ∃ t, (scanRow ctx sa y xs st).sugs = st.sugs ++ t := by
  intro xs
  induction xs with
  | nil => intro st; exact ⟨[], (List.append_nil _).symm⟩
  | cons x xs ih =>
    intro st
    simp only [scanRow]
    split
    · exact ⟨[], (List.append_nil _).symm⟩
    · split
      · exact ⟨[], by rw [doPoll_sugs, List.append_nil]⟩
      · obtain ⟨t1, h1⟩ := tryAnchor_sugs_append ctx y x (doPoll sa .colAnchor st).2
        obtain ⟨t2, h2⟩ := ih (tryAnchor ctx y x (doPoll sa .colAnchor st).2)
        refine ⟨t1 ++ t2, ?_⟩
        rw [h2, h1, doPoll_sugs, List.append_assoc]

/-- The outer loop only ever appends to the suggestion list. -/
theorem scanRows_sugs_append (ctx : ScanCtx) (sa : Option (ℕ → Bool)) :
    ∀ (ys : List ℕ) (st : ScanSt),
      ∃ t, (scanRows ctx sa ys st).sugs = st.sugs ++ t := by
  intro ys
  induction ys with
  | nil => intro st; exact ⟨[], (List.append_nil _).symm⟩
  | cons y ys ih =>
    intro st
    simp only [scanRows]
    split
    · exact ⟨[], (List.append_nil _).symm⟩
    · split
      · exact ⟨[], by rw [doPoll_sugs, List.append_nil]⟩
      · obtain ⟨t1, h1⟩ := scanRow_sugs_append ctx sa y ctx.colAnchors
          { (doPoll sa .rowStart st).2 with
            processedRows := (doPoll sa .rowStart st).2.processedRows + 1 }
        split
        · refine ⟨t1, ?_⟩
          rw [doPoll_sugs, h1]
          show (doPoll sa .rowStart st).2.sugs ++ t1 = _
          rw [doPoll_sugs]
        · obtain ⟨t2, h2⟩ := ih (doPoll sa .rowEnd
            (scanRow ctx sa y ctx.colAnchors
              { (doPoll sa .rowStart st).2 with
                processedRows := (doPoll sa .rowStart st).2.processedRows + 1 })).2
          refine ⟨t1 ++ t2, ?_⟩
          rw [h2, doPoll_sugs, h1]
          show (doPoll sa .rowStart st).2.sugs ++ t1 ++ t2 = _
          rw [doPoll_sugs, List.append_assoc]

/-- One anchor acts identically on aligned states. -/
theorem tryAnchor_align (ctx : ScanCtx) (y x : ℕ) (st1 st2 : ScanSt)
    (hA : Aligned st1 st2) :
    Aligned (tryAnchor ctx y x st1) (tryAnchor ctx y x st2) := by
  obtain ⟨h1, h2, h3⟩ := hA
  unfold tryAnchor acceptAt
  rw [h1, h2, h3]
  by_cases hc : st2.avail (y * ctx.W + x) = false
  · rw [if_pos hc, if_pos hc]
    exact ⟨h1, h2, h3⟩
  · rw [if_neg hc, if_neg hc]
    rcases hfind : ctx.sizePairs.find?
        (fun p => candidateOK ctx st2.avail st2.original y x (wPxOf ctx p) (hPxOf ctx p))
      with _ | p
    · exact ⟨h1, h2, h3⟩
    · exact ⟨rfl, rfl, rfl⟩

/-- Inner-loop simulation: a run with cancellation observations `f` either
stays aligned with the uncancelled run, or it has observed a `true` value and
the uncancelled run's suggestions extend its own. -/
theorem scanRow_sim (ctx : ScanCtx) (f : ℕ → Bool) (y : ℕ) :
    ∀ (xs : List ℕ) (st1 st2 : ScanSt), Aligned st1 st2 →
      Aligned (scanRow ctx (some f) y xs st1)
          (scanRow ctx (some (fun _ => false)) y xs st2) ∨
      ((∃ k, k < (scanRow ctx (some f) y xs st1).polls ∧ f k = true) ∧
        ∃ t, (scanRow ctx (some (fun _ => false)) y xs st2).sugs =
          (scanRow ctx (some f) y xs st1).sugs ++ t) := by
  intro xs
  induction xs with
  | nil => intro st1 st2 hA; exact .inl hA
  | cons x xs ih =>
    intro st1 st2 hA
    obtain ⟨h1, h2, h3⟩ := hA
    simp only [scanRow]
    by_cases hg : ctx.maxShapes ≤ st1.sugs.length
    · have hg2 : ctx.maxShapes ≤ st2.sugs.length := h1 ▸ hg
      rw [if_pos hg, if_pos hg2]
      exact .inl ⟨h1, h2, h3⟩
    · have hg2 : ¬ ctx.maxShapes ≤ st2.sugs.length := by
        rw [← h1]
        exact hg
      rw [if_neg hg, if_neg hg2]
      simp only [doPoll]
      rcases hf1 : f st1.polls with _ | _
      · simp only [if_neg Bool.false_ne_true]
        exact ih _ _ (tryAnchor_align ctx y x _ _ ⟨h1, h2, h3⟩)
      · simp only [if_neg Bool.false_ne_true,
          if_pos (show (true : Bool) = true from rfl)]
        refine .inr ⟨⟨st1.polls, Nat.lt_succ_self _, hf1⟩, ?_⟩
        obtain ⟨t2, ht2⟩ := scanRow_sugs_append ctx (some (fun _ => false)) y xs
          (tryAnchor ctx y x
            { st2 with
              polls := st2.polls + 1, trace := st2.trace ++ [PollSite.colAnchor] })
        obtain ⟨t1, ht1⟩ := tryAnchor_sugs_append ctx y x
          { st2 with
            polls := st2.polls + 1, trace := st2.trace ++ [PollSite.colAnchor] }
        refine ⟨t1 ++ t2, ?_⟩
        rw [ht2, ht1]
        show st2.sugs ++ t1 ++ t2 = st1.sugs ++ (t1 ++ t2)
        rw [h1, List.append_assoc]

/-- Suggestions of a later inner-loop state extend any list the start state
extends. -/
theorem scanRow_extends (ctx : ScanCtx) (sa : Option (ℕ → Bool)) (y : ℕ)
    (xs : List ℕ) (B1 B2 : ScanSt) (h : ∃ t0, B2.sugs = B1.sugs ++ t0) :
    ∃ t, (scanRow ctx sa y xs B2).sugs = B1.sugs ++ t := by
  obtain ⟨t0, h0⟩ := h
  obtain ⟨t1, h1⟩ := scanRow_sugs_append ctx sa y xs B2
  refine ⟨t0 ++ t1, ?_⟩
  rw [h1, h0, List.append_assoc]

/-- Suggestions of a later outer-loop state extend any list the start state
extends. -/
theorem scanRows_extends (ctx : ScanCtx) (sa : Option (ℕ → Bool))
    (ys : List ℕ) (B1 B2 : ScanSt) (h : ∃ t0, B2.sugs = B1.sugs ++ t0) :
    ∃ t, (scanRows ctx sa ys B2).sugs = B1.sugs ++ t := by
  obtain ⟨t0, h0⟩ := h
  obtain ⟨t1, h1⟩ := scanRows_sugs_append ctx sa ys B2
  refine ⟨t0 ++ t1, ?_⟩
  rw [h1, h0, List.append_assoc]

/-- Outer-loop simulation: against the uncancelled run, a run with a monotone
cancellation sequence either stays aligned or has observed `true` and is a
prefix of the uncancelled run's suggestions. -/
theorem scanRows_sim (ctx : ScanCtx) (f : ℕ → Bool) (hf : AbortMonotone f) :
    ∀ (ys : List ℕ) (st1 st2 : ScanSt), Aligned st1 st2 →
      Aligned (scanRows ctx (some f) ys st1)
          (scanRows ctx (some (fun _ => false)) ys st2) ∨
      ((∃ k, k < (scanRows ctx (some f) ys st1).polls ∧ f k = true) ∧
        ∃ t, (scanRows ctx (some (fun _ => false)) ys st2).sugs =
          (scanRows ctx (some f) ys st1).sugs ++ t) := by
  intro ys
  induction ys with
  | nil => intro st1 st2 hA; exact .inl hA
  | cons y ys ih =>
    intro st1 st2 hA
    obtain ⟨h1, h2, h3⟩ := hA
    simp only [scanRows]
    by_cases hg : ctx.maxShapes ≤ st1.sugs.length
    · have hg2 : ctx.maxShapes ≤ st2.sugs.length := h1 ▸ hg
      rw [if_pos hg, if_pos hg2]
      exact .inl ⟨h1, h2, h3⟩
    · have hg2 : ¬ ctx.maxShapes ≤ st2.sugs.length := by
        rw [← h1]
        exact hg
      rw [if_neg hg, if_neg hg2]
      simp only [doPoll]
      rcases hf1 : f st1.polls with _ | _
      · simp only [if_neg Bool.false_ne_true]
        rcases scanRow_sim ctx f y ctx.colAnchors
            { st1 with
              polls := st1.polls + 1
              trace := st1.trace ++ [PollSite.rowStart]
              processedRows := st1.processedRows + 1 }
            { st2 with
              polls := st2.polls + 1
              trace := st2.trace ++ [PollSite.rowStart]
              processedRows := st2.processedRows + 1 }
            ⟨h1, h2, h3⟩
          with ⟨r1, r2, r3⟩ | ⟨⟨k, hk, hfk⟩, tR, htR⟩
        · rcases hf2 : f (scanRow ctx (some f) y ctx.colAnchors
              { st1 with
                polls := st1.polls + 1
                trace := st1.trace ++ [PollSite.rowStart]
                processedRows := st1.processedRows + 1 }).polls with _ | _
          · simp only [if_neg Bool.false_ne_true]
            exact ih _ _ ⟨r1, r2, r3⟩
          · simp only [if_pos (show (true : Bool) = true from rfl)]
            refine .inr ⟨⟨_, Nat.lt_succ_self _, hf2⟩, ?_⟩
            refine scanRows_extends ctx _ ys _ _ ?_
            refine ⟨[], ?_⟩
            rw [List.append_nil]
            exact r1.symm
        · have hf2 : f (scanRow ctx (some f) y ctx.colAnchors
              { st1 with
                polls := st1.polls + 1
                trace := st1.trace ++ [PollSite.rowStart]
                processedRows := st1.processedRows + 1 }).polls :=
            hf k _ (le_of_lt hk) hfk
          simp only [if_pos hf2]
          refine .inr ⟨⟨k, lt_trans hk (Nat.lt_succ_self _), hfk⟩, ?_⟩
          refine scanRows_extends ctx _ ys _ _ ?_
          exact ⟨tR, htR⟩
      · simp only [if_pos (show (true : Bool) = true from rfl)]
        refine .inr ⟨⟨st1.polls, Nat.lt_succ_self _, hf1⟩, ?_⟩
        refine scanRows_extends ctx _ ys _ _ ?_
        refine scanRow_extends ctx _ y ctx.colAnchors _ _ ?_
        refine ⟨[], ?_⟩
        rw [List.append_nil]
        show st2.sugs = st1.sugs
        exact h1.symm

/-- The resolved scan configuration does not depend on the cancellation
callback. -/
theorem mkScanCtx_ignores_shouldAbort (W H : ℕ) (wMm hMm : ℚ)
    (opts : RectanglePackingOptions) (sa : Option (ℕ → Bool)) :
    mkScanCtx W H wMm hMm { opts with shouldAbort := sa } =
      mkScanCtx W H wMm hMm opts := rfl

/-- C8 (amended): the cancellation predicate is polled at row starts, at each
column anchor inside a row's inner loop, and at the end-of-row check after
the yield point — never mid-candidate-attempt; and cancellation is
non-destructive: with a monotone predicate (an abort flag that once set stays
set), whenever the scan is cancelled the returned suggestions are exactly a
prefix of what the uncancelled scan would return — partial results are
returned, not discarded. -/
theorem suggest_abort_returns_prefix (mask : List ℕ) (W H : ℕ) (wMm hMm : ℚ)
    (opts : RectanglePackingOptions) (f : ℕ → Bool) (hf : AbortMonotone f)
    (st1 st2 : ScanSt)
    (h1 : suggestRectanglesFromMask mask W H wMm hMm
      { opts with shouldAbort := some f } = .ok st1)
    (h2 : suggestRectanglesFromMask mask W H wMm hMm
      { opts with shouldAbort := some (fun _ => false) } = .ok st2) :
    st1.sugs <+: st2.sugs := by
  unfold suggestRectanglesFromMask at h1 h2
  split at h1
  · cases h1
  · split at h1
    · cases h1
    · rename_i hc1 hc2
      rw [if_neg hc1, if_neg hc2] at h2
      injection h1 with e1
      injection h2 with e2
      subst e1
      subst e2
      rw [mkScanCtx_ignores_shouldAbort W H wMm hMm opts (some f),
        mkScanCtx_ignores_shouldAbort W H wMm hMm opts (some (fun _ => false))]
      rcases scanRows_sim (mkScanCtx W H wMm hMm opts) f hf
          (rowAnchorsOf (mkScanCtx W H wMm hMm opts)) (initSt mask) (initSt mask)
          ⟨rfl, rfl, rfl⟩
        with hAl | ⟨-, t, ht⟩
      · exact ⟨[], by rw [List.append_nil]; exact hAl.1⟩
      · exact ⟨t, ht.symm⟩

/-- C8 (counterexample to the claim as stated): with a cancellation predicate
supplied and never returning true, the recorded poll trace of a 4×4 two-row
scan contains two consecutive `colAnchor` polls inside each row's inner loop:
the predicate is evaluated between column anchors, not only at row
boundaries and after yield points. -/
theorem abort_polled_between_column_anchors :
    suggestRectanglesFromMask demo2Mask 4 4 4 4 demo2Opts = .ok demo2St ∧
    demo2St.trace =
      [PollSite.rowStart, PollSite.colAnchor, PollSite.colAnchor, PollSite.rowEnd,
        PollSite.rowStart, PollSite.colAnchor, PollSite.colAnchor, PollSite.rowEnd] := by
  constructor
  · with_unfolding_all rfl
  · with_unfolding_all decide

/-- C9: the engine accepts placements (here four) and resolves with them,
while its `RectanglePackingOptions` interface has no `onRectangleAdded`
member and the acceptance path (push suggestion, mark region used, break)
invokes no caller hook: a supplied `onRectangleAdded` callback is never
called, so no per-acceptance invocation happens before the call resolves. -/
theorem suggest_accepts_without_hook_invocation :
    suggestRectanglesFromMask demoMask 8 8 8 8 demoOpts = .ok demoSt ∧
    demoSt.sugs.length = 4 := by
  constructor
  · with_unfolding_all rfl
  · with_unfolding_all decide

/-- Witness for C1 at the 8×8 demo board: the first suggestion is the image
of a pixel placement meeting the coverage threshold. -/
theorem suggest_purity_ge_threshold_witness :
    ∃ r : PxRect,
      ({ xMm := 0, yMm := 0, widthMm := 4, heightMm := 4 } : RectangleSuggestion) =
        toSug (pxPerMmX 8 8) (pxPerMmY 8 8) r ∧
      resolvedCoverageThreshold demoOpts ≤
        whiteCoverageRatio (binarize demoMask) 8 r.x r.y r.w r.h :=
  suggest_purity_ge_threshold demoMask 8 8 8 8 demoOpts demoSt
    (by with_unfolding_all rfl)
    { xMm := 0, yMm := 0, widthMm := 4, heightMm := 4 }
    (by with_unfolding_all decide)

/-- Witness for C2 at the 8×8 demo board. -/
theorem suggest_gap_expanded_disjoint_witness :
    ∃ rs : List PxRect,
      demoSt.sugs = rs.map (toSug (pxPerMmX 8 8) (pxPerMmY 8 8)) ∧
      rs.Pairwise (fun a b => ∀ xx yy,
        inExpandedRect 8 8 (resolvedGapPxX 8 8 demoOpts) (resolvedGapPxY 8 8 demoOpts) a xx yy →
        inExpandedRect 8 8 (resolvedGapPxX 8 8 demoOpts) (resolvedGapPxY 8 8 demoOpts) b xx yy →
        False) :=
  suggest_gap_expanded_disjoint demoMask 8 8 8 8 demoOpts demoSt
    (by with_unfolding_all rfl)

/-- Witness for C3 at the 8×8 demo board: the last suggestion lies within the
physical board. -/
theorem suggest_within_board_witness :
    0 ≤ ({ xMm := 4, yMm := 4, widthMm := 4, heightMm := 4 } : RectangleSuggestion).xMm ∧
    0 ≤ ({ xMm := 4, yMm := 4, widthMm := 4, heightMm := 4 } : RectangleSuggestion).yMm ∧
    ({ xMm := 4, yMm := 4, widthMm := 4, heightMm := 4 } : RectangleSuggestion).xMm +
      ({ xMm := 4, yMm := 4, widthMm := 4, heightMm := 4 } : RectangleSuggestion).widthMm ≤ (8 : ℚ) ∧
    ({ xMm := 4, yMm := 4, widthMm := 4, heightMm := 4 } : RectangleSuggestion).yMm +
      ({ xMm := 4, yMm := 4, widthMm := 4, heightMm := 4 } : RectangleSuggestion).heightMm ≤ (8 : ℚ) :=
  suggest_within_board demoMask 8 8 8 8 demoOpts demoSt
    (by with_unfolding_all rfl)
    { xMm := 4, yMm := 4, widthMm := 4, heightMm := 4 }
    (by with_unfolding_all decide)

/-- Witness for C4: two runs with pointwise-equal cancellation predicates. -/
theorem suggest_deterministic_witness :
    suggestRectanglesFromMask demo2Mask 4 4 4 4
      { demo2Opts with shouldAbort := some (fun _ => false) } =
    suggestRectanglesFromMask demo2Mask 4 4 4 4
      { demo2Opts with shouldAbort := some (fun _ => false) } :=
  suggest_deterministic demo2Mask 4 4 4 4 demo2Opts (fun _ => false) (fun _ => false)
    (fun _ => rfl)

/-- Witness for C5 at the 8×8 demo board. -/
theorem suggest_respects_maxShapes_witness :
    demoSt.sugs.length ≤ resolvedMaxShapes demoOpts ∧
    demoCapSt.sugs.length = 1 ∧ 1 < demoSt.sugs.length :=
  suggest_respects_maxShapes demoMask 8 8 8 8 demoOpts demoSt
    (by with_unfolding_all rfl)

/-- Witness for C6 at the 8×8 demo board. -/
theorem suggest_discovery_order_witness :
    demoSt.sugs.Pairwise
      (fun a b => a.yMm < b.yMm ∨ (a.yMm = b.yMm ∧ a.xMm < b.xMm)) ∧
    List.Sorted (fun a b : SizePair =>
      b.widthMm * b.heightMm ≤ a.widthMm * a.heightMm) (sizePairsOf demoOpts) :=
  suggest_discovery_order demoMask 8 8 8 8 demoOpts demoSt
    (by with_unfolding_all rfl)

/-- Witness for the amended C8: a cancellation sequence that flips true at
its third evaluation yields a strict prefix of the uncancelled result. -/
theorem suggest_abort_returns_prefix_witness :
    demo2AbortSt.sugs <+: demo2St.sugs :=
  suggest_abort_returns_prefix demo2Mask 4 4 4 4 demo2Opts demo2AbortSeq
    (fun _ n hmn hm => decide_eq_true (le_trans (of_decide_eq_true hm) hmn))
    demo2AbortSt demo2St
    (by with_unfolding_all rfl)
    (by with_unfolding_all rfl)

/-- Witness for C10 on a cancelled run: the caller's mask is returned
untouched. -/
theorem suggest_preserves_caller_mask_witness :
    demo2AbortSt.maskBuf = demo2Mask :=
  suggest_preserves_caller_mask demo2Mask 4 4 4 4
    { demo2Opts with shouldAbort := some demo2AbortSeq } demo2AbortSt
    (by with_unfolding_all rfl)
